import Mathlib

/-!
Verification of `hooks/tk-multi-publish2/common/alembic_publisher.py`
(`AlembicCachePublishPlugin`).

The hook's four lifecycle callbacks — `accept`, `validate`, `publish` and
`finalize` — are embedded shallowly: the host file system is an explicit
state (`FS`), an item's `properties` dictionary is an association list of
Python-style values (`PVal`), and the external metadata-registration service
(`sgtk.util.register_publish`) is an injected oracle. External helper
functions from the `sgtk` platform that the hook calls are modelled next to
the hook code, each with a doc comment saying what it is modelled from.
-/

/-- Python-style scalar values, as they occur inside a dictionary value such
as the registration result (`sg_publish_data`); the hook only ever reads
scalar entries (the `id`) out of such a dictionary, so one level of nesting
suffices. -/
inductive PAtom where
  | aNone
  | aBool (b : Bool)
  | aInt (n : Int)
  | aStr (s : String)
deriving DecidableEq, Repr

/-- Python-style values stored in a `properties` dictionary. -/
inductive PVal where
  | vNone
  | vBool (b : Bool)
  | vInt (n : Int)
  | vStr (s : String)
  | vDict (entries : List (String × PAtom))
deriving DecidableEq, Repr

/-- Python truthiness (`if value:`): `None`, `False`, `0`, `""` and `{}` are
falsy, everything else is truthy. -/
def truthy : PVal → Bool
  | .vNone => false
  | .vBool b => b
  | .vInt n => n != 0
  | .vStr s => s != ""
  | .vDict entries => !entries.isEmpty

/-- Python dictionary assignment `d[k] = v`: replace any existing binding of
`k` and bind `k` to `v`. -/
def alSet (l : List (String × α)) (k : String) (v : α) : List (String × α) :=
  l.filter (fun e => e.1 != k) ++ [(k, v)]

/-- Python dictionary deletion: drop any binding of `k`. -/
def alRemove (l : List (String × α)) (k : String) : List (String × α) :=
  l.filter (fun e => e.1 != k)

/-- Dictionary lookup: the value bound to `k`, if any. -/
def alGet {β : Type} (l : List (String × β)) (k : String) : Option β :=
  match l with
  | [] => none
  | (a, v) :: t => if k = a then some v else alGet t k

/-- Python `d.get(k, default)`. -/
def pgetD (props : List (String × PVal)) (k : String) (d : PVal) : PVal :=
  (alGet props k).getD d

/-- Python `d.get(k)` (default `None`). -/
def pget (props : List (String × PVal)) (k : String) : PVal :=
  pgetD props k .vNone

/-- Python `d.get(k)` on a dictionary of scalar entries (default `None`). -/
def aget (entries : List (String × PAtom)) (k : String) : PAtom :=
  (alGet entries k).getD .aNone

/-- Split a character list on a separator character; mirrors Python
`str.split(sep)` for a one-character separator. -/
def splitChars (sep : Char) : List Char → List (List Char)
  | [] => [[]]
  | c :: cs =>
    let r := splitChars sep cs
    if c = sep then [] :: r
    else
      match r with
      | [] => [[c]]
      | h :: t => (c :: h) :: t

/-- Join character lists with a separator character. -/
def joinWith (sep : Char) : List (List Char) → List Char
  | [] => []
  | [x] => x
  | x :: y :: t => x ++ sep :: joinWith sep (y :: t)

/-- First character of a string is `c`. -/
def strStartsWith (s : String) (c : Char) : Bool :=
  s.data.head? == some c

/-- Last character of a string is `c`. -/
def strEndsWith (s : String) (c : Char) : Bool :=
  s.data.getLast? == some c

/-- Modelled from `os.path.split` (POSIX): split a path into the directory
part and the final component. -/
def pathSplit (p : String) : String × String :=
  let parts := splitChars '/' p.data
  let fname := parts.getLastD []
  let folderChars := joinWith '/' parts.dropLast
  let folderChars :=
    if folderChars.isEmpty && strStartsWith p '/' && decide (parts.length > 1) then
      ['/']
    else folderChars
  (String.mk folderChars, String.mk fname)

/-- Modelled from `os.path.join` (POSIX, two arguments): an absolute second
component discards the first; otherwise the components are joined with a
single separator. -/
def os_path_join (a b : String) : String :=
  if strStartsWith b '/' then b
  else if a = "" then b
  else if strEndsWith a '/' then a ++ b
  else a ++ "/" ++ b

/-- Digit character test. -/
def isDigitCh (c : Char) : Bool :=
  '0' ≤ c && c ≤ '9'

/-- Leading run of digit characters. -/
def takeDigits : List Char → List Char
  | [] => []
  | c :: cs => if isDigitCh c then c :: takeDigits cs else []

/-- Numeric value of a digit run. -/
def digitsVal (l : List Char) : Nat :=
  l.foldl (fun acc c => acc * 10 + (c.toNat - 48)) 0

/-- Modelled from the spec: the version number parsed from a file name — a
`v`-prefixed digit run introduced by a `.`, `_` or `-` separator, as in
`sim.v003.abc`. -/
def scanVersion : List Char → Option Nat
  | [] => none
  | [_] => none
  | sep :: c :: rest =>
    if (sep = '.' || sep = '_' || sep = '-') && c = 'v' &&
        (match rest with | d :: _ => isDigitCh d | [] => false) then
      some (digitsVal (takeDigits rest))
    else scanVersion (c :: rest)

/-- Components of a file path as produced by the host publisher utility. -/
structure FileInfo where
  path : String
  folder : String
  filename : String
  prefixPart : String
  extension : String
  version : Option Nat
deriving DecidableEq, Repr

/-- Split a file name into the part before the last dot and the part after
it; a name without a dot has an empty extension. -/
def splitExt (fname : List Char) : List Char × List Char :=
  let parts := splitChars '.' fname
  match parts with
  | [] => (fname, [])
  | [_] => (fname, [])
  | _ => (joinWith '.' parts.dropLast, parts.getLastD [])

/-- Modelled from the spec: the host publisher utility
`publisher.util.get_file_path_components` (external to this repository)
breaks a path into its folder, file name, file-name prefix, extension and
any version number parsed from the file name. -/
def get_file_path_components (p : String) : FileInfo :=
  let (folder, fname) := pathSplit p
  let (pre, ext) := splitExt fname.data
  { path := p, folder := folder, filename := fname,
    prefixPart := String.mk pre, extension := String.mk ext,
    version := scanVersion fname.data }

/-- The file system: file contents by path, plus the set of directories that
exist. -/
structure FS where
  files : List (String × String)
  dirs : List String
deriving DecidableEq, Repr

/-- Failures that escape the hook to the host. -/
inductive PubErr where
  | keyError (k : String)
  | typeError
  | copyError (src dst : String)
  | registerError (msg : String)
deriving DecidableEq, Repr

/-- Modelled from `sgtk.util.filesystem.copy_file` (external), which wraps
`shutil.copy`: copying fails when the source file is missing or when source
and destination are the same file (`shutil.SameFileError`); otherwise the
destination receives the source's content. -/
def copy_file (fs : FS) (src dst : String) : Except PubErr FS :=
  if src = dst then .error (.copyError src dst)
  else
    match alGet fs.files src with
    | none => .error (.copyError src dst)
    | some content => .ok { fs with files := alSet fs.files dst content }

/-- Modelled from `sgtk.util.filesystem.ensure_folder_exists` (external):
create the directory chain if it does not already exist. -/
def ensure_folder_exists (fs : FS) (d : String) : FS :=
  if d ∈ fs.dirs then fs else { fs with dirs := d :: fs.dirs }

/-- Modelled from `sgtk.util.filesystem.safe_delete_file` (external): delete
the file if it exists; the call never raises. -/
def safe_delete_file (fs : FS) (p : String) : FS :=
  { fs with files := alRemove fs.files p }

/-- The host-supplied item: its own `properties` dictionary, its parent
item's `properties` dictionary, and the opaque fields the hook forwards to
registration (`context`, `description`, thumbnail path). -/
structure Item where
  properties : List (String × PVal)
  parentProperties : List (String × PVal)
  context : String
  description : String
  thumbnail : Option String
deriving DecidableEq, Repr

/-- The keyword arguments the hook passes to `sgtk.util.register_publish`. -/
structure RegArgs where
  context : String
  comment : String
  path : String
  name : String
  version_number : PVal
  thumbnail_path : Option String
  published_file_type : String
  dependency_ids : List PAtom
deriving DecidableEq, Repr

/-- `accept(self, log, settings, item)`: reject when the `path` key is
absent from the item's properties, otherwise accept (optional, enabled). -/
def accept (item : Item) : List (String × PVal) :=
  if (alGet item.properties "path").isSome then
    [("accepted", .vBool true), ("required", .vBool false), ("enabled", .vBool true)]
  else
    [("accepted", .vBool false)]

/-- `validate(self, log, settings, item)`: always `True`. -/
def validate (_item : Item) : Bool :=
  true

/-- `file_info["version"]` as passed to registration: an integer, or `None`
when no version was parsed. -/
def versionVal : Option Nat → PVal
  | some n => .vInt n
  | none => .vNone

/-- `item.parent.properties.get("sg_publish_data", {}).get("id")`: the
parent's publish id, `None` when the parent has not been published; a
non-dictionary value under `sg_publish_data` raises (`AttributeError`). -/
def parent_publish_id_of (props : List (String × PVal)) : Except PubErr PAtom :=
  match pgetD props "sg_publish_data" (.vDict []) with
  | .vDict d => .ok (aget d "id")
  | _ => .error .typeError

/-- The publish-folder branch of `publish`: when the parent's
`publish_folder` is truthy, build `<publish_folder>/cache/alembic`, ensure it
exists, copy the source there and recompute the file components from the new
publish path; otherwise publish in place. Returns the updated file system,
the publish path and the (possibly updated) file components. -/
def publishResolve (fs : FS) (path : String) (fi : FileInfo) (pubFolderV : PVal) :
    Except PubErr (FS × String × FileInfo) :=
  if truthy pubFolderV then
    match pubFolderV with
    | .vStr pf =>
      let apf := os_path_join (os_path_join pf "cache") "alembic"
      let fs1 := ensure_folder_exists fs apf
      let publishPath := os_path_join apf fi.filename
      match copy_file fs1 path publishPath with
      | .error e => .error e
      | .ok fs2 => .ok (fs2, publishPath, get_file_path_components publishPath)
    | _ => .error .typeError
  else
    .ok (fs, path, fi)

/-- The tail of `publish`: choose the publish version (the parent's
`publish_version` when truthy, else the version from the file components),
build the registration arguments, call the registration service and write
`sg_publish_data`, `publish_version` and `publish_folder` back into the
item's properties. -/
def publishFinish (reg : RegArgs → Except PubErr (List (String × PAtom))) (publishType : String)
    (item : Item) (fs1 : FS) (publishPath : String) (fi1 : FileInfo) :
    Except PubErr (FS × Item × RegArgs) :=
  let pv0 := pget item.parentProperties "publish_version"
  let publishVersion := if truthy pv0 then pv0 else versionVal fi1.version
  match parent_publish_id_of item.parentProperties with
  | .error e => .error e
  | .ok ppid =>
    let args : RegArgs :=
      { context := item.context
        comment := item.description
        path := publishPath
        name := fi1.prefixPart ++ "." ++ fi1.extension
        version_number := publishVersion
        thumbnail_path := item.thumbnail
        published_file_type := publishType
        dependency_ids := [ppid] }
    match reg args with
    | .error e => .error e
    | .ok sgData =>
      let props :=
        alSet (alSet (alSet item.properties "sg_publish_data" (.vDict sgData))
          "publish_version" publishVersion) "publish_folder" (.vStr fi1.folder)
      .ok (fs1, { item with properties := props }, args)

/-- `publish(self, log, settings, item)`: read the item's `path`, resolve
the publish path (copying into the parent's publish folder when one is set),
then register and write back. The registration service is the injected
`reg`; the returned triple is the file system after the copy, the item after
the property write-backs, and the arguments the registration was called
with. -/
def publish (reg : RegArgs → Except PubErr (List (String × PAtom))) (publishType : String)
    (fs : FS) (item : Item) : Except PubErr (FS × Item × RegArgs) :=
  match alGet item.properties "path" with
  | none => .error (.keyError "path")
  | some (.vStr path) =>
    let fi := get_file_path_components path
    match publishResolve fs path fi (pget item.parentProperties "publish_folder") with
    | .error e => .error e
    | .ok (fs1, publishPath, fi1) => publishFinish reg publishType item fs1 publishPath fi1
  | some _ => .error .typeError

/-- `finalize(self, log, settings, item)`: delete the file at the item's
original `path` property. -/
def finalize (fs : FS) (item : Item) : Except PubErr FS :=
  match alGet item.properties "path" with
  | none => .error (.keyError "path")
  | some (.vStr p) => .ok (safe_delete_file fs p)
  | some _ => .error .typeError

/-- Projection: the registration arguments of a successful publish. -/
def okArgs : Except PubErr (FS × Item × RegArgs) → Option RegArgs
  | .ok (_, _, a) => some a
  | .error _ => none

/-- Projection: the item of a successful publish. -/
def okItem : Except PubErr (FS × Item × RegArgs) → Option Item
  | .ok (_, it, _) => some it
  | .error _ => none

/-- Projection: the file system of a successful publish. -/
def okFS : Except PubErr (FS × Item × RegArgs) → Option FS
  | .ok (f, _, _) => some f
  | .error _ => none

deriving instance DecidableEq for Except

/-- A registration oracle that always succeeds, for concrete runs. -/
def regOk99 : RegArgs → Except PubErr (List (String × PAtom)) :=
  fun _ => .ok [("id", .aInt 99)]

/-- Concrete item published in place: the parent has a `publish_version` of
`0` (present but falsy) and no `publish_folder`. -/
def itemC3 : Item :=
  { properties := [("path", .vStr "/proj/work/sim.v003.abc")]
    parentProperties := [("publish_version", .vInt 0)]
    context := "c", description := "d", thumbnail := none }

/-- File system holding the source file of `itemC3`. -/
def fsC3 : FS := { files := [("/proj/work/sim.v003.abc", "DATA")], dirs := [] }

/-- The result of publishing `itemC3` on `fsC3` with `regOk99`. -/
def outC3 : FS × Item × RegArgs :=
  ({ files := [("/proj/work/sim.v003.abc", "DATA")], dirs := [] },
   { properties := [("path", .vStr "/proj/work/sim.v003.abc"),
       ("sg_publish_data", .vDict [("id", .aInt 99)]),
       ("publish_version", .vInt 3),
       ("publish_folder", .vStr "/proj/work")]
     parentProperties := [("publish_version", .vInt 0)]
     context := "c", description := "d", thumbnail := none },
   { context := "c", comment := "d",
     path := "/proj/work/sim.v003.abc", name := "sim.v003.abc",
     version_number := .vInt 3, thumbnail_path := none,
     published_file_type := "Alembic Cache",
     dependency_ids := [.aNone] })

/-- Concrete item whose parent designates a publish folder. -/
def itemW1 : Item :=
  { properties := [("path", .vStr "/proj/work/sim.v003.abc")]
    parentProperties := [("publish_folder", .vStr "/proj/pub"), ("publish_version", .vInt 7),
      ("sg_publish_data", .vDict [("id", .aInt 42)])]
    context := "ctx", description := "desc", thumbnail := none }

/-- File system holding the source file of `itemW1`. -/
def fsW1 : FS := { files := [("/proj/work/sim.v003.abc", "DATA")], dirs := [] }

/-- The result of publishing `itemW1` on `fsW1` with `regOk99`. -/
def outW1 : FS × Item × RegArgs :=
  ({ files := [("/proj/work/sim.v003.abc", "DATA"),
       ("/proj/pub/cache/alembic/sim.v003.abc", "DATA")]
     dirs := ["/proj/pub/cache/alembic"] },
   { properties := [("path", .vStr "/proj/work/sim.v003.abc"),
       ("sg_publish_data", .vDict [("id", .aInt 99)]),
       ("publish_version", .vInt 7),
       ("publish_folder", .vStr "/proj/pub/cache/alembic")]
     parentProperties := [("publish_folder", .vStr "/proj/pub"), ("publish_version", .vInt 7),
       ("sg_publish_data", .vDict [("id", .aInt 42)])]
     context := "ctx", description := "desc", thumbnail := none },
   { context := "ctx", comment := "desc",
     path := "/proj/pub/cache/alembic/sim.v003.abc", name := "sim.v003.abc",
     version_number := .vInt 7, thumbnail_path := none,
     published_file_type := "Alembic Cache",
     dependency_ids := [.aInt 42] })

/-- Item whose `path` property names a file that does not exist on disk. -/
def itemC8 : Item :=
  { properties := [("path", .vStr "/no/such/file.abc")], parentProperties := [],
    context := "c8", description := "", thumbnail := none }

/-- An empty file system. -/
def fsEmpty : FS := { files := [], dirs := [] }

/-- Item with no `path` property at all. -/
def itemNoPath : Item :=
  { properties := [("name", .vStr "x")], parentProperties := [],
    context := "c0", description := "", thumbnail := none }

theorem alGet_nil {β : Type} (k : String) : alGet ([] : List (String × β)) k = none := rfl

theorem alGet_cons {β : Type} (a k : String) (v : β) (t : List (String × β)) :
    alGet ((a, v) :: t) k = if k = a then some v else alGet t k := rfl

theorem alGet_append {β : Type} (l l' : List (String × β)) (k : String) :
    alGet (l ++ l') k = ((alGet l k).orElse fun _ => alGet l' k) := by
  induction l with
  | nil => simp [alGet]
  | cons e t ih =>
    obtain ⟨a, b⟩ := e
    by_cases h : k = a <;> simp [alGet_cons, h, ih]

theorem alGet_filter_ne_self {β : Type} (l : List (String × β)) (k : String) :
    alGet (l.filter (fun e => e.1 != k)) k = none := by
  induction l with
  | nil => simp [alGet]
  | cons e t ih =>
    obtain ⟨a, b⟩ := e
    by_cases h : a = k
    · simpa [List.filter_cons, h] using ih
    · simpa [List.filter_cons, h, alGet_cons, Ne.symm h] using ih

theorem alGet_filter_ne {β : Type} (l : List (String × β)) {q k : String} (h : q ≠ k) :
    alGet (l.filter (fun e => e.1 != k)) q = alGet l q := by
  induction l with
  | nil => simp
  | cons e t ih =>
    obtain ⟨a, b⟩ := e
    by_cases hak : a = k
    · subst hak
      simpa [List.filter_cons, alGet_cons, h] using ih
    · by_cases hqa : q = a <;> simp [List.filter_cons, hak, alGet_cons, hqa, ih]

theorem alSet_get_self {β : Type} (l : List (String × β)) (k : String) (v : β) :
    alGet (alSet l k v) k = some v := by
  simp [alSet, alGet_append, alGet_filter_ne_self, alGet_cons]

theorem alSet_get_ne {β : Type} (l : List (String × β)) {q k : String} (v : β)
    (h : q ≠ k) : alGet (alSet l k v) q = alGet l q := by
  simp [alSet, alGet_append, alGet_filter_ne l h, alGet_cons, h]
  cases alGet l q <;> simp [alGet]

theorem alRemove_get_self {β : Type} (l : List (String × β)) (k : String) :
    alGet (alRemove l k) k = none :=
  alGet_filter_ne_self l k

theorem alRemove_get_ne {β : Type} (l : List (String × β)) {q k : String}
    (h : q ≠ k) : alGet (alRemove l k) q = alGet l q :=
  alGet_filter_ne l h

theorem ensure_folder_exists_files (fs : FS) (d : String) :
    (ensure_folder_exists fs d).files = fs.files := by
  unfold ensure_folder_exists
  split <;> rfl

theorem ensure_folder_exists_mem (fs : FS) (d : String) :
    d ∈ (ensure_folder_exists fs d).dirs := by
  unfold ensure_folder_exists
  by_cases h : d ∈ fs.dirs
  · rw [if_pos h]; exact h
  · rw [if_neg h]; exact List.mem_cons_self d _

theorem copy_file_ok_inv {fs fs2 : FS} {src dst : String}
    (h : copy_file fs src dst = .ok fs2) :
    src ≠ dst ∧ ∃ c, alGet fs.files src = some c ∧
      fs2 = { fs with files := alSet fs.files dst c } := by
  unfold copy_file at h
  by_cases hsd : src = dst
  · simp [hsd] at h
  · rw [if_neg hsd] at h
    cases hl : alGet fs.files src with
    | none => rw [hl] at h; exact absurd h (by simp)
    | some c =>
      rw [hl] at h
      exact ⟨hsd, c, rfl, (Except.ok.inj h).symm⟩

theorem os_path_join_eq {a b : String} (ha : a ≠ "") (hae : strEndsWith a '/' = false)
    (hbs : strStartsWith b '/' = false) : os_path_join a b = a ++ "/" ++ b := by
  unfold os_path_join
  rw [if_neg (by simp [hbs]), if_neg ha, if_neg (by simp [hae])]

theorem strEndsWith_append_right {a b : String} {c : Char} (h : b.data ≠ []) :
    strEndsWith (a ++ b) c = strEndsWith b c := by
  simp [strEndsWith, String.data_append, List.getLast?_append_of_ne_nil _ h]

theorem append_ne_empty_right {a b : String} (h : b ≠ "") : a ++ b ≠ "" := by
  intro hc
  apply h
  apply String.ext
  have := congrArg String.data hc
  rw [String.data_append] at this
  rcases List.append_eq_nil.mp this with ⟨_, h2⟩
  simpa using h2

theorem join3_concrete (pf fn : String) (ha : pf ≠ "") (hae : strEndsWith pf '/' = false)
    (hfn : strStartsWith fn '/' = false) :
    os_path_join (os_path_join (os_path_join pf "cache") "alembic") fn
      = pf ++ "/cache/alembic/" ++ fn := by
  have h1 : os_path_join pf "cache" = pf ++ "/" ++ "cache" :=
    os_path_join_eq ha hae (by decide)
  have h1ne : pf ++ "/" ++ "cache" ≠ "" := append_ne_empty_right (by decide)
  have h1e : strEndsWith (pf ++ "/" ++ "cache") '/' = false := by
    rw [String.append_assoc, strEndsWith_append_right (by decide)]
    decide
  have h2 : os_path_join (pf ++ "/" ++ "cache") "alembic"
      = pf ++ "/" ++ "cache" ++ "/" ++ "alembic" :=
    os_path_join_eq h1ne h1e (by decide)
  have h2ne : pf ++ "/" ++ "cache" ++ "/" ++ "alembic" ≠ "" := append_ne_empty_right (by decide)
  have h2e : strEndsWith (pf ++ "/" ++ "cache" ++ "/" ++ "alembic") '/' = false := by
    rw [String.append_assoc, strEndsWith_append_right (by decide)]
    decide
  rw [h1, h2, os_path_join_eq h2ne h2e hfn]
  simp only [String.append_assoc]
  congr 1


theorem publishFinish_ok_inv {reg : RegArgs → Except PubErr (List (String × PAtom))}
    {pt : String} {item : Item} {fs1 : FS} {pp : String} {fi1 : FileInfo}
    {fsOut : FS} {itemOut : Item} {args : RegArgs}
    (h : publishFinish reg pt item fs1 pp fi1 = .ok (fsOut, itemOut, args)) :
    fsOut = fs1 ∧
    args.path = pp ∧
    args.version_number =
      (if truthy (pget item.parentProperties "publish_version") then
        pget item.parentProperties "publish_version"
      else versionVal fi1.version) ∧
    (∃ ppid, parent_publish_id_of item.parentProperties = .ok ppid ∧
      args.dependency_ids = [ppid]) ∧
    (∃ d, reg args = .ok d ∧
      itemOut.properties =
        alSet (alSet (alSet item.properties "sg_publish_data" (.vDict d))
          "publish_version" args.version_number) "publish_folder" (.vStr fi1.folder) ∧
      itemOut.parentProperties = item.parentProperties) := by
  simp only [publishFinish] at h
  split at h
  · exact absurd h (by simp)
  · rename_i ppid hp
    split at h
    · exact absurd h (by simp)
    · rename_i d hr
      injection h with h'
      injection h' with hfs h''
      injection h'' with hitem hargs
      subst hfs hitem hargs
      exact ⟨rfl, rfl, rfl, ⟨ppid, hp, rfl⟩, ⟨d, hr, rfl, rfl⟩⟩

theorem publishResolve_not_truthy {fs : FS} {path : String} {fi : FileInfo} {v : PVal}
    (h : truthy v = false) : publishResolve fs path fi v = .ok (fs, path, fi) := by
  simp [publishResolve, h]

theorem publishResolve_vStr_ok_inv {fs : FS} {path : String} {fi : FileInfo} {pf : String}
    (hpf : pf ≠ "") {fs2 : FS} {pp : String} {fi2 : FileInfo}
    (h : publishResolve fs path fi (.vStr pf) = .ok (fs2, pp, fi2)) :
    pp = os_path_join (os_path_join (os_path_join pf "cache") "alembic") fi.filename ∧
    fi2 = get_file_path_components pp ∧
    path ≠ pp ∧
    (os_path_join (os_path_join pf "cache") "alembic") ∈ fs2.dirs ∧
    ∃ c, alGet fs.files path = some c ∧ fs2.files = alSet fs.files pp c := by
  have ht : truthy (.vStr pf) = true := by simp [truthy, hpf]
  simp only [publishResolve, ht, if_true] at h
  split at h
  · exact absurd h (by simp)
  · rename_i fs3 hcopy
    injection h with h'
    injection h' with hfs h''
    injection h'' with hpp hfi
    subst hfs hpp hfi
    obtain ⟨hne, c, hsrc, hfs3⟩ := copy_file_ok_inv hcopy
    subst hfs3
    refine ⟨rfl, rfl, hne, ?_, c, ?_, ?_⟩
    · exact ensure_folder_exists_mem fs _
    · rw [← ensure_folder_exists_files fs (os_path_join (os_path_join pf "cache") "alembic")]
      exact hsrc
    · rw [← ensure_folder_exists_files fs (os_path_join (os_path_join pf "cache") "alembic")]

theorem publish_ok_inv {reg : RegArgs → Except PubErr (List (String × PAtom))}
    {pt : String} {fs : FS} {item : Item} {out : FS × Item × RegArgs}
    (h : publish reg pt fs item = .ok out) :
    ∃ path fs1 pp fi1,
      alGet item.properties "path" = some (.vStr path) ∧
      publishResolve fs path (get_file_path_components path)
        (pget item.parentProperties "publish_folder") = .ok (fs1, pp, fi1) ∧
      publishFinish reg pt item fs1 pp fi1 = .ok out := by
  simp only [publish] at h
  split at h
  all_goals try exact absurd h (by simp)
  rename_i path hpath
  split at h
  all_goals try exact absurd h (by simp)
  rename_i fs1 pp fi1 hres
  exact ⟨path, fs1, pp, fi1, hpath, hres, h⟩

theorem publishResolve_ok_components {fs : FS} {path : String} {v : PVal}
    {fs1 : FS} {pp : String} {fi1 : FileInfo}
    (h : publishResolve fs path (get_file_path_components path) v = .ok (fs1, pp, fi1)) :
    fi1 = get_file_path_components pp := by
  unfold publishResolve at h
  split at h
  · split at h
    · simp only [] at h
      split at h
      · exact absurd h (by simp)
      · injection h with h'
        injection h' with _ h''
        injection h'' with hpp hfi
        subst hpp
        exact hfi.symm
    · exact absurd h (by simp)
  · injection h with h'
    injection h' with _ h''
    injection h'' with hpp hfi
    subst hpp
    exact hfi.symm

theorem copy_file_missing_src {fs : FS} {src dst : String}
    (h : alGet fs.files src = none) :
    copy_file fs src dst = .error (.copyError src dst) := by
  unfold copy_file
  by_cases hsd : src = dst
  · rw [if_pos hsd]
  · rw [if_neg hsd, h]

theorem publishResolve_vStr_missing_src {fs : FS} {path : String} {fi : FileInfo}
    {pf : String} (hpf : pf ≠ "") (hmiss : alGet fs.files path = none) :
    publishResolve fs path fi (.vStr pf) =
      .error (.copyError path
        (os_path_join (os_path_join (os_path_join pf "cache") "alembic") fi.filename)) := by
  have ht : truthy (.vStr pf) = true := by simp [truthy, hpf]
  simp only [publishResolve, ht, if_true]
  rw [copy_file_missing_src (by rw [ensure_folder_exists_files]; exact hmiss)]

theorem publish_eq_of_path {reg : RegArgs → Except PubErr (List (String × PAtom))}
    {pt : String} {fs : FS} {item : Item} {path : String}
    (hpath : alGet item.properties "path" = some (.vStr path)) :
    publish reg pt fs item =
      match publishResolve fs path (get_file_path_components path)
        (pget item.parentProperties "publish_folder") with
      | .error e => .error e
      | .ok (fs1, pp, fi1) => publishFinish reg pt item fs1 pp fi1 := by
  simp only [publish, hpath]

theorem publishFinish_preserves_path {reg : RegArgs → Except PubErr (List (String × PAtom))}
    {pt : String} {item : Item} {fs1 : FS} {pp : String} {fi1 : FileInfo}
    {fsOut : FS} {itemOut : Item} {args : RegArgs}
    (h : publishFinish reg pt item fs1 pp fi1 = .ok (fsOut, itemOut, args)) :
    alGet itemOut.properties "path" = alGet item.properties "path" := by
  obtain ⟨_, _, _, _, d, _, hprops, _⟩ := publishFinish_ok_inv h
  rw [hprops, alSet_get_ne _ _ (by decide), alSet_get_ne _ _ (by decide),
    alSet_get_ne _ _ (by decide)]

theorem publish_ok_version_eq {reg : RegArgs → Except PubErr (List (String × PAtom))}
    {pt : String} {fs : FS} {item : Item} {out : FS × Item × RegArgs}
    (hok : publish reg pt fs item = .ok out) :
    out.2.2.version_number =
      (if truthy (pget item.parentProperties "publish_version") then
        pget item.parentProperties "publish_version"
      else versionVal (get_file_path_components out.2.2.path).version) ∧
    alGet out.2.1.properties "publish_version" = some out.2.2.version_number := by
  obtain ⟨path, fs1, pp, fi1, hpath, hres, hfin⟩ := publish_ok_inv hok
  obtain ⟨fsO, itemO, args⟩ := out
  obtain ⟨hfs, hppath, hver, _, d, _, hprops, _⟩ := publishFinish_ok_inv hfin
  have hcomp : fi1 = get_file_path_components pp := publishResolve_ok_components hres
  constructor
  · show args.version_number = _
    rw [show args.path = pp from hppath, ← hcomp]
    exact hver
  · show alGet itemO.properties "publish_version" = _
    rw [hprops, alSet_get_ne _ _ (by decide), alSet_get_self]

/-- C4: `accept` returns `accepted = False` exactly when the `path` key is
absent from the item's properties; otherwise it returns `accepted = True`
with `required = False` and `enabled = True`. -/
theorem accept_result_by_path_presence (item : Item) :
    ((alGet (accept item) "accepted" = some (.vBool false)) ↔
      alGet item.properties "path" = none) ∧
    (alGet item.properties "path" ≠ none →
      accept item =
        [("accepted", .vBool true), ("required", .vBool false), ("enabled", .vBool true)]) := by
  unfold accept
  by_cases h : (alGet item.properties "path").isSome
  · rw [if_pos h]
    constructor
    · constructor
      · intro hc
        exact absurd hc (by decide)
      · intro hc
        rw [hc] at h
        simp at h
    · intro _
      rfl
  · rw [if_neg h]
    have hn : alGet item.properties "path" = none := Option.not_isSome_iff_eq_none.mp h
    constructor
    · exact ⟨fun _ => hn, fun _ => by decide⟩
    · intro hc
      exact absurd hn hc

/-- C4 (witness): a concrete item with a path property is accepted with the
full result dictionary. -/
theorem accept_result_by_path_presence_witness :
    alGet itemC3.properties "path" ≠ none ∧
    accept itemC3 =
      [("accepted", .vBool true), ("required", .vBool false), ("enabled", .vBool true)] :=
  ⟨by decide, (accept_result_by_path_presence itemC3).2 (by decide)⟩

/-- C8 (counterexample): `accept` accepts an item whose `path` names a file
that does not exist on any disk — here the file system is empty — so accept
performs no file-existence check. -/
theorem accept_no_disk_check_counterexample :
    alGet (accept itemC8) "accepted" = some (.vBool true) ∧
    alGet fsEmpty.files "/no/such/file.abc" = none := by
  decide

/-- C8 (amended): `accept` consults no file system; an item is accepted
exactly when its properties contain the `path` key, whether or not a file at
that path exists on disk. -/
theorem accept_checks_only_path_key (item : Item) :
    (alGet (accept item) "accepted" = some (.vBool true)) ↔
      (alGet item.properties "path").isSome = true := by
  unfold accept
  by_cases h : (alGet item.properties "path").isSome
  · rw [if_pos h, h]
    have : alGet [("accepted", PVal.vBool true), ("required", PVal.vBool false),
        ("enabled", PVal.vBool true)] "accepted" = some (.vBool true) := by decide
    exact ⟨fun _ => rfl, fun _ => this⟩
  · rw [if_neg h]
    have hf : (alGet item.properties "path").isSome = false := by
      rwa [Bool.not_eq_true] at h
    rw [hf]
    constructor
    · intro hc
      exact absurd hc (by decide)
    · intro hc
      cases hc

/-- C5: when the parent's properties lack a truthy `publish_folder`,
`publish` performs no copy (the file system is returned unchanged) and
registers a publish path equal to the item's original `path`. -/
theorem publish_in_place_without_publish_folder
    (reg : RegArgs → Except PubErr (List (String × PAtom))) (pt : String)
    (fs : FS) (item : Item) (path : String) (out : FS × Item × RegArgs)
    (hpath : alGet item.properties "path" = some (.vStr path))
    (hnf : truthy (pget item.parentProperties "publish_folder") = false)
    (hok : publish reg pt fs item = .ok out) :
    out.1 = fs ∧ out.2.2.path = path := by
  obtain ⟨path', fs1, pp, fi1, hpath', hres, hfin⟩ := publish_ok_inv hok
  rw [hpath] at hpath'
  injection hpath' with hsome
  injection hsome with hvp
  subst hvp
  rw [publishResolve_not_truthy hnf] at hres
  injection hres with h'
  injection h' with hfs1 h''
  injection h'' with hpp hfi
  obtain ⟨fsO, itemO, args⟩ := out
  obtain ⟨hfs, hppath, _, _, _⟩ := publishFinish_ok_inv hfin
  exact ⟨hfs.trans hfs1.symm, hppath.trans hpp.symm⟩

/-- C5 (witness): the concrete in-place scenario publishes at the original
path and leaves the file system untouched. -/
theorem publish_in_place_without_publish_folder_witness :
    publish regOk99 "Alembic Cache" fsC3 itemC3 = .ok outC3 ∧
    (outC3.1 = fsC3 ∧ outC3.2.2.path = "/proj/work/sim.v003.abc") :=
  ⟨by decide, publish_in_place_without_publish_folder regOk99 "Alembic Cache" fsC3 itemC3
    "/proj/work/sim.v003.abc" outC3 (by decide) (by decide) (by decide)⟩

/-- C3 (counterexample): a parent `publish_version` of `0` is present, yet
the registered and written-back version is the one parsed from the file
name (`3`), so "present" does not govern the preference order. -/
theorem version_preference_counterexample :
    alGet itemC3.parentProperties "publish_version" = some (.vInt 0) ∧
    publish regOk99 "Alembic Cache" fsC3 itemC3 = .ok outC3 ∧
    outC3.2.2.version_number = .vInt 3 ∧
    alGet outC3.2.1.properties "publish_version" = some (.vInt 3) ∧
    (.vInt 3 : PVal) ≠ .vInt 0 := by
  decide

/-- C3 (amended): the version number registered and written back as
`publish_version` is the parent's `publish_version` when that value is
truthy; otherwise the version parsed from the publish-path file name;
otherwise it is unset (`None`). -/
theorem publish_version_preference
    (reg : RegArgs → Except PubErr (List (String × PAtom))) (pt : String)
    (fs : FS) (item : Item) (out : FS × Item × RegArgs)
    (hok : publish reg pt fs item = .ok out) :
    out.2.2.version_number =
      (if truthy (pget item.parentProperties "publish_version") then
        pget item.parentProperties "publish_version"
      else versionVal (get_file_path_components out.2.2.path).version) ∧
    alGet out.2.1.properties "publish_version" = some out.2.2.version_number :=
  publish_ok_version_eq hok

/-- C3 (witness): the amended preference evaluated on a concrete run. -/
theorem publish_version_preference_witness :
    publish regOk99 "Alembic Cache" fsC3 itemC3 = .ok outC3 ∧
    (outC3.2.2.version_number =
      (if truthy (pget itemC3.parentProperties "publish_version") then
        pget itemC3.parentProperties "publish_version"
      else versionVal (get_file_path_components outC3.2.2.path).version) ∧
    alGet outC3.2.1.properties "publish_version" = some outC3.2.2.version_number) :=
  ⟨by decide, publish_version_preference regOk99 "Alembic Cache" fsC3 itemC3 outC3 (by decide)⟩

/-- C9: the registration call always passes `dependency_ids` as a list of
exactly one element, and when the parent has no `sg_publish_data` that
element is `None` rather than the list being empty. -/
theorem dependency_ids_singleton
    (reg : RegArgs → Except PubErr (List (String × PAtom))) (pt : String)
    (fs : FS) (item : Item) (out : FS × Item × RegArgs)
    (hok : publish reg pt fs item = .ok out) :
    out.2.2.dependency_ids.length = 1 ∧
    (alGet item.parentProperties "sg_publish_data" = none →
      out.2.2.dependency_ids = [.aNone]) := by
  obtain ⟨path, fs1, pp, fi1, hpath, hres, hfin⟩ := publish_ok_inv hok
  obtain ⟨fsO, itemO, args⟩ := out
  obtain ⟨_, _, _, ⟨ppid, hppid, hdep⟩, _⟩ := publishFinish_ok_inv hfin
  constructor
  · show args.dependency_ids.length = 1
    rw [hdep]
    rfl
  · intro hno
    have hnone : parent_publish_id_of item.parentProperties = .ok .aNone := by
      unfold parent_publish_id_of pgetD
      rw [hno]
      rfl
    rw [hnone] at hppid
    injection hppid with hp
    show args.dependency_ids = [.aNone]
    rw [hdep, ← hp]

/-- C9 (witness): concrete run with an unpublished parent. -/
theorem dependency_ids_singleton_witness :
    publish regOk99 "Alembic Cache" fsC3 itemC3 = .ok outC3 ∧
    (outC3.2.2.dependency_ids.length = 1 ∧
    (alGet itemC3.parentProperties "sg_publish_data" = none →
      outC3.2.2.dependency_ids = [.aNone])) :=
  ⟨by decide, dependency_ids_singleton regOk99 "Alembic Cache" fsC3 itemC3 outC3 (by decide)⟩

/-- C10: a present but falsy parent `publish_version` (for example `0`) is
discarded in favour of the version parsed from the publish-path file name. -/
theorem falsy_parent_version_falls_back
    (reg : RegArgs → Except PubErr (List (String × PAtom))) (pt : String)
    (fs : FS) (item : Item) (pv : PVal) (out : FS × Item × RegArgs)
    (hpv : alGet item.parentProperties "publish_version" = some pv)
    (hfalsy : truthy pv = false)
    (hok : publish reg pt fs item = .ok out) :
    out.2.2.version_number = versionVal (get_file_path_components out.2.2.path).version := by
  have h := (publish_ok_version_eq hok).1
  rw [show pget item.parentProperties "publish_version" = pv from by
      rw [pget, pgetD, hpv]; rfl] at h
  rw [h, if_neg (by simp [hfalsy])]

/-- C10 (witness): parent `publish_version = 0` falls back to the file-name
version on a concrete run. -/
theorem falsy_parent_version_falls_back_witness :
    alGet itemC3.parentProperties "publish_version" = some (.vInt 0) ∧
    truthy (.vInt 0) = false ∧
    outC3.2.2.version_number = versionVal (get_file_path_components outC3.2.2.path).version :=
  ⟨by decide, by decide, falsy_parent_version_falls_back regOk99 "Alembic Cache" fsC3 itemC3
    (.vInt 0) outC3 (by decide) (by decide) (by decide)⟩

/-- C1: with a truthy (non-empty string) parent `publish_folder`, a
successful `publish` registers the publish path
`<publish_folder>/cache/alembic/<filename>`, creates that directory chain
under the parent's publish folder, and the published file there carries the
source file's content. -/
theorem publish_copies_into_publish_folder
    (reg : RegArgs → Except PubErr (List (String × PAtom))) (pt : String)
    (fs : FS) (item : Item) (path pf : String) (out : FS × Item × RegArgs)
    (hpath : alGet item.properties "path" = some (.vStr path))
    (hpf : pget item.parentProperties "publish_folder" = .vStr pf)
    (hpf0 : pf ≠ "")
    (hpfe : strEndsWith pf '/' = false)
    (hfn : strStartsWith (get_file_path_components path).filename '/' = false)
    (hok : publish reg pt fs item = .ok out) :
    out.2.2.path = pf ++ "/cache/alembic/" ++ (get_file_path_components path).filename ∧
    os_path_join (os_path_join pf "cache") "alembic" ∈ out.1.dirs ∧
    alGet out.1.files out.2.2.path = alGet fs.files path ∧
    alGet fs.files path ≠ none := by
  obtain ⟨path', fs1, pp, fi1, hpath', hres, hfin⟩ := publish_ok_inv hok
  rw [hpath] at hpath'
  injection hpath' with hsome
  injection hsome with hvp
  subst hvp
  rw [hpf] at hres
  obtain ⟨hppjoin, hficomp, hne, hmem, c, hsrc, hfiles⟩ := publishResolve_vStr_ok_inv hpf0 hres
  obtain ⟨fsO, itemO, args⟩ := out
  obtain ⟨hfs, hppath, _, _, _⟩ := publishFinish_ok_inv hfin
  subst hfs
  have hppc : pp = pf ++ "/cache/alembic/" ++ (get_file_path_components path).filename := by
    rw [hppjoin]
    exact join3_concrete pf _ hpf0 hpfe hfn
  refine ⟨hppath.trans hppc, hmem, ?_, ?_⟩
  · show alGet fsO.files args.path = alGet fs.files path
    rw [hppath, hfiles, alSet_get_self]
    exact hsrc.symm
  · rw [hsrc]
    simp

/-- C1 (witness): a concrete publish into a parent publish folder. -/
theorem publish_copies_into_publish_folder_witness :
    publish regOk99 "Alembic Cache" fsW1 itemW1 = .ok outW1 ∧
    (outW1.2.2.path =
        "/proj/pub" ++ "/cache/alembic/" ++
          (get_file_path_components "/proj/work/sim.v003.abc").filename ∧
      os_path_join (os_path_join "/proj/pub" "cache") "alembic" ∈ outW1.1.dirs ∧
      alGet outW1.1.files outW1.2.2.path = alGet fsW1.files "/proj/work/sim.v003.abc" ∧
      alGet fsW1.files "/proj/work/sim.v003.abc" ≠ none) :=
  ⟨by decide, publish_copies_into_publish_folder regOk99 "Alembic Cache" fsW1 itemW1
    "/proj/work/sim.v003.abc" "/proj/pub" outW1 (by decide) (by decide) (by decide)
    (by decide) (by decide) (by decide)⟩

/-- C2: `finalize` deletes exactly the file at the item's original `path`
property and no other file; `publish` leaves the `path` property unmodified,
and since a successful copy forces the publish path to differ from the
source path, the copied publish path is never the file deleted. -/
theorem finalize_deletes_only_original_path
    (reg : RegArgs → Except PubErr (List (String × PAtom))) (pt : String)
    (fs : FS) (item : Item) (path pf : String) (out : FS × Item × RegArgs)
    (hpath : alGet item.properties "path" = some (.vStr path))
    (hpf : pget item.parentProperties "publish_folder" = .vStr pf)
    (hpf0 : pf ≠ "")
    (hok : publish reg pt fs item = .ok out) :
    alGet out.2.1.properties "path" = some (.vStr path) ∧
    out.2.2.path ≠ path ∧
    finalize out.1 out.2.1 = .ok (safe_delete_file out.1 path) ∧
    alGet (safe_delete_file out.1 path).files path = none ∧
    (∀ q, q ≠ path → alGet (safe_delete_file out.1 path).files q = alGet out.1.files q) ∧
    alGet (safe_delete_file out.1 path).files out.2.2.path =
      alGet out.1.files out.2.2.path := by
  obtain ⟨path', fs1, pp, fi1, hpath', hres, hfin⟩ := publish_ok_inv hok
  rw [hpath] at hpath'
  injection hpath' with hsome
  injection hsome with hvp
  subst hvp
  rw [hpf] at hres
  obtain ⟨hppjoin, _, hne, _, c, hsrc, hfiles⟩ := publishResolve_vStr_ok_inv hpf0 hres
  obtain ⟨fsO, itemO, args⟩ := out
  have hpres : alGet itemO.properties "path" = some (.vStr path) :=
    (publishFinish_preserves_path hfin).trans hpath
  obtain ⟨hfs, hppath, _, _, _⟩ := publishFinish_ok_inv hfin
  have hargsne : args.path ≠ path := by
    rw [hppath]
    exact fun hc => hne hc.symm
  refine ⟨hpres, hargsne, ?_, ?_, ?_, ?_⟩
  · show finalize fsO itemO = _
    unfold finalize
    rw [hpres]
  · show alGet (alRemove fsO.files path) path = none
    exact alRemove_get_self _ _
  · intro q hq
    show alGet (alRemove fsO.files path) q = alGet fsO.files q
    exact alRemove_get_ne _ hq
  · show alGet (alRemove fsO.files path) args.path = alGet fsO.files args.path
    exact alRemove_get_ne _ hargsne

/-- C2 (witness): on a concrete publish-then-finalize run, exactly the
original source is deleted and the copied publish path survives. -/
theorem finalize_deletes_only_original_path_witness :
    publish regOk99 "Alembic Cache" fsW1 itemW1 = .ok outW1 ∧
    (alGet outW1.2.1.properties "path" = some (.vStr "/proj/work/sim.v003.abc") ∧
      outW1.2.2.path ≠ "/proj/work/sim.v003.abc" ∧
      finalize outW1.1 outW1.2.1 =
        .ok (safe_delete_file outW1.1 "/proj/work/sim.v003.abc") ∧
      alGet (safe_delete_file outW1.1 "/proj/work/sim.v003.abc").files
        "/proj/work/sim.v003.abc" = none ∧
      (∀ q, q ≠ "/proj/work/sim.v003.abc" →
        alGet (safe_delete_file outW1.1 "/proj/work/sim.v003.abc").files q =
          alGet outW1.1.files q) ∧
      alGet (safe_delete_file outW1.1 "/proj/work/sim.v003.abc").files outW1.2.2.path =
        alGet outW1.1.files outW1.2.2.path) :=
  ⟨by decide, finalize_deletes_only_original_path regOk99 "Alembic Cache" fsW1 itemW1
    "/proj/work/sim.v003.abc" "/proj/pub" outW1 (by decide) (by decide) (by decide)
    (by decide)⟩

/-- C7: with a truthy parent publish folder, a successful `publish` leaves
the content stored at the item's original path unchanged — the source file
is only read, never written or removed. -/
theorem publish_leaves_source_unchanged
    (reg : RegArgs → Except PubErr (List (String × PAtom))) (pt : String)
    (fs : FS) (item : Item) (path pf : String) (out : FS × Item × RegArgs)
    (hpath : alGet item.properties "path" = some (.vStr path))
    (hpf : pget item.parentProperties "publish_folder" = .vStr pf)
    (hpf0 : pf ≠ "")
    (hok : publish reg pt fs item = .ok out) :
    alGet out.1.files path = alGet fs.files path := by
  obtain ⟨path', fs1, pp, fi1, hpath', hres, hfin⟩ := publish_ok_inv hok
  rw [hpath] at hpath'
  injection hpath' with hsome
  injection hsome with hvp
  subst hvp
  rw [hpf] at hres
  obtain ⟨_, _, hne, _, c, hsrc, hfiles⟩ := publishResolve_vStr_ok_inv hpf0 hres
  obtain ⟨fsO, itemO, args⟩ := out
  obtain ⟨hfs, _, _, _, _⟩ := publishFinish_ok_inv hfin
  subst hfs
  show alGet fsO.files path = alGet fs.files path
  rw [hfiles, alSet_get_ne _ _ hne]

/-- C7 (witness): the source content is unchanged by a concrete publish. -/
theorem publish_leaves_source_unchanged_witness :
    publish regOk99 "Alembic Cache" fsW1 itemW1 = .ok outW1 ∧
    alGet outW1.1.files "/proj/work/sim.v003.abc" =
      alGet fsW1.files "/proj/work/sim.v003.abc" :=
  ⟨by decide, publish_leaves_source_unchanged regOk99 "Alembic Cache" fsW1 itemW1
    "/proj/work/sim.v003.abc" "/proj/pub" outW1 (by decide) (by decide) (by decide)
    (by decide)⟩

/-- C6: the only handled condition is the missing path in `accept` (a normal
not-accepted return, no exception); `validate` always succeeds; a copy
failure or a registration failure makes `publish` return that very error
unhandled; `finalize` returns the bare result of the delete call. -/
theorem only_missing_path_is_handled :
    (∀ item : Item, alGet item.properties "path" = none →
      accept item = [("accepted", .vBool false)]) ∧
    (∀ item : Item, validate item = true) ∧
    (∀ (reg : RegArgs → Except PubErr (List (String × PAtom))) (pt : String)
        (fs : FS) (item : Item) (path pf : String),
      alGet item.properties "path" = some (.vStr path) →
      pget item.parentProperties "publish_folder" = .vStr pf →
      pf ≠ "" →
      alGet fs.files path = none →
      ∃ dst, publish reg pt fs item = .error (.copyError path dst)) ∧
    (∀ (pt : String) (fs : FS) (item : Item) (path : String) (e : PubErr)
        (fs1 : FS) (pp : String) (fi1 : FileInfo) (ppid : PAtom),
      alGet item.properties "path" = some (.vStr path) →
      publishResolve fs path (get_file_path_components path)
        (pget item.parentProperties "publish_folder") = .ok (fs1, pp, fi1) →
      parent_publish_id_of item.parentProperties = .ok ppid →
      publish (fun _ => .error e) pt fs item = .error e) ∧
    (∀ (fs : FS) (item : Item) (p : String),
      alGet item.properties "path" = some (.vStr p) →
      finalize fs item = .ok (safe_delete_file fs p)) := by
  refine ⟨?_, ?_, ?_, ?_, ?_⟩
  · intro item h
    unfold accept
    rw [if_neg (by rw [h]; simp)]
  · intro item
    rfl
  · intro reg pt fs item path pf hpath hpf hpf0 hmiss
    refine ⟨os_path_join (os_path_join (os_path_join pf "cache") "alembic")
      (get_file_path_components path).filename, ?_⟩
    rw [publish_eq_of_path hpath, hpf, publishResolve_vStr_missing_src hpf0 hmiss]
  · intro pt fs item path e fs1 pp fi1 ppid hpath hres hppid
    rw [publish_eq_of_path hpath, hres]
    unfold publishFinish
    rw [hppid]
  · intro fs item p hp
    unfold finalize
    rw [hp]

/-- C6 (witness): concrete instances — a missing path is soft-handled by
`accept`; a missing source file makes `publish` fail with the copy error; a
failing registration service makes `publish` fail with that error; and
`finalize` returns the bare delete result. -/
theorem only_missing_path_is_handled_witness :
    (alGet itemNoPath.properties "path" = none ∧
      accept itemNoPath = [("accepted", .vBool false)]) ∧
    (∃ dst, publish regOk99 "Alembic Cache" fsEmpty itemW1 =
      .error (.copyError "/proj/work/sim.v003.abc" dst)) ∧
    publish (fun _ => .error (.registerError "down")) "Alembic Cache" fsC3 itemC3 =
      .error (.registerError "down") ∧
    finalize fsC3 itemC3 = .ok (safe_delete_file fsC3 "/proj/work/sim.v003.abc") :=
  ⟨⟨by decide, only_missing_path_is_handled.1 itemNoPath (by decide)⟩,
   only_missing_path_is_handled.2.2.1 regOk99 "Alembic Cache" fsEmpty itemW1
     "/proj/work/sim.v003.abc" "/proj/pub" (by decide) (by decide) (by decide) (by decide),
   only_missing_path_is_handled.2.2.2.1 "Alembic Cache" fsC3 itemC3
     "/proj/work/sim.v003.abc" (.registerError "down") fsC3 "/proj/work/sim.v003.abc"
     (get_file_path_components "/proj/work/sim.v003.abc") .aNone
     (by decide) (by decide) (by decide),
   only_missing_path_is_handled.2.2.2.2 fsC3 itemC3 "/proj/work/sim.v003.abc" (by decide)⟩
